import Mathlib

/-!
Shallow embedding of the NextStep study tracker (CORBlimey21/NextStep).

The repository has two front ends over the same data model:
`NextStep_CLI.py` (terminal menu) and `NextStep_Streamlit.py` (web
dashboard).  The decision logic embedded here is:

* the streak computation `calculate_streak` (both front ends);
* the statistics aggregation over the session log (`view_summary` in the
  CLI, the Dashboard page in the web app);
* the priority engine of Instant Mode (`instant_mode` in the CLI, the
  Instant Mode page in the web app);
* the session recorders (`manual_log_session` in the CLI, and the
  confirm-and-log step at the end of `instant_mode`).

Modelling conventions:
* calendar dates are integers (a day number); timestamps are rationals
  measured in days, so `⌊t⌋` is the timestamp's date component and
  Python's `(now - last).days` (floor of the difference in days) is
  `⌊now - last⌋`;
* Python's exact-value arithmetic on scores is modelled in `ℚ`
  (`0.1` is `1/10`, `1.5` is `3/2`, `0.5` is `1/2`);
* Python's floor division `//` on integers is `Int.fdiv`;
* a Python `dict` is an association list in insertion order;
* interactive prompts are external collaborators: the re-prompt loops
  deliver a value of the prompted type, and yes/no answers become a
  caller-supplied `accept` predicate;
* fallible indexing (`subject_priorities[0][0]`) is `Option`-valued.
-/

namespace NextStep

/-- A session log entry, as appended by both front ends:
`{"subject", "timestamp", "task_type", "duration_mins", "effectiveness"}`. -/
structure SessionRecord where
  subject : String
  timestamp : ℚ
  task_type : String
  duration_mins : ℤ
  effectiveness : ℤ
deriving DecidableEq

/-- Per-subject data: `{"confidence": ..., "exam_date": ...}`, each possibly
unset (`None`). -/
structure SubjectData where
  confidence : Option ℤ
  exam_date : Option ℤ
deriving DecidableEq

/-- The subject store: a dict `subject name → data`, in insertion order. -/
abbrev SubjectStore := List (String × SubjectData)

/-- Python truthiness of `data.get("confidence")`: `None` and `0` are falsy,
any other integer is truthy. -/
def confTruthy : Option ℤ → Bool
  | none => false
  | some c => c != 0

/-- Python truthiness of `data.get("exam_date")`: `None` is falsy, a date
object is always truthy. -/
def dateTruthy : Option ℤ → Bool
  | none => false
  | some _ => true

/-- The Instant Mode configuration guard, from
`all(data.get("exam_date") and data.get("confidence") for data in subjects.values())`
(CLI line 260, Streamlit line 163). -/
def configured (store : SubjectStore) : Bool :=
  store.all fun p => dateTruthy p.2.exam_date && confTruthy p.2.confidence

/-- `get_days_since_last_session` (CLI lines 123–132, Streamlit 69–78):
the floor of `now` minus the most recent timestamp for the subject, in days;
`none` if the subject was never studied. -/
def get_days_since_last_session (log : List SessionRecord) (subject : String)
    (now : ℚ) : Option ℤ :=
  match ((log.filter fun e => e.subject == subject).map (·.timestamp)).max? with
  | none => none
  | some last => some ⌊now - last⌋

/-- `recent_session_count` (CLI lines 111–121; inlined at Streamlit 185):
how many log entries for `subject` have `timestamp ≥ now - days`. -/
def recent_session_count (log : List SessionRecord) (subject : String)
    (now : ℚ) (days : ℤ) : ℕ :=
  (log.filter fun e => e.subject == subject && decide (now - days ≤ e.timestamp)).length

/-- `urgency = 1 / max(days_left, 0.1)` (CLI line 285, Streamlit 176). -/
def urgency (days_left : ℤ) : ℚ :=
  1 / max (days_left : ℚ) (1 / 10)

/-- The decay-adjusted confidence (CLI lines 290–294, Streamlit 181–182):
`max(1, stored_conf - min(days_since // 7, 3))` when a last session exists,
the stored confidence unchanged otherwise. -/
def adjusted_confidence (stored_conf : ℤ) (days_since : Option ℤ) : ℤ :=
  match days_since with
  | some d => max 1 (stored_conf - min (Int.fdiv d 7) 3)
  | none => stored_conf

/-- The per-subject priority score of Instant Mode (CLI lines 284–300,
Streamlit 175–188). -/
def priority_score (log : List SessionRecord) (subject : String)
    (stored_conf exam today : ℤ) (now : ℚ) : ℚ :=
  let days_left := exam - today
  let adjusted_conf := adjusted_confidence stored_conf
    (get_days_since_last_session log subject now)
  let difficulty : ℚ := ((11 - adjusted_conf : ℤ) : ℚ)
  let repetition_penalty : ℚ := (recent_session_count log subject now 7 : ℚ) * (1 / 2)
  urgency days_left * (3 / 2) + difficulty - repetition_penalty

/-- One entry of `subject_priorities`: the dict access `data["confidence"]`
and `data["exam_date"]` happens after the configuration guard, so the values
are present; `getD` supplies the (unreachable) default. -/
def score_of (log : List SessionRecord) (today : ℤ) (now : ℚ)
    (p : String × SubjectData) : String × ℚ :=
  (p.1, priority_score log p.1 (p.2.confidence.getD 0) (p.2.exam_date.getD 0) today now)

/-- Errors of the core, named as in the specification. -/
inductive CoreError where
  | incompleteConfiguration
deriving DecidableEq

/-- The descending-score ordering used by
`subject_priorities.sort(key=lambda x: x[1], reverse=True)`. -/
def scoreGE (a b : String × ℚ) : Prop := b.2 ≤ a.2

instance : DecidableRel scoreGE := fun a b => inferInstanceAs (Decidable (b.2 ≤ a.2))

instance : IsTotal (String × ℚ) scoreGE := ⟨fun a b => le_total b.2 a.2⟩

instance : IsTrans (String × ℚ) scoreGE := ⟨fun _ _ _ h1 h2 => le_trans h2 h1⟩

/-- The pure ranking part of `instant_mode` (CLI lines 259–304, Streamlit
163–191): the configuration guard, the per-subject scores in dict order, and
the stable descending sort.  Python's `list.sort` is a stable sort by the
key; a stable sort with respect to a total preorder is unique, so it is
embedded as the (stable) insertion sort by descending score. -/
def instant_mode_rank (store : SubjectStore) (log : List SessionRecord)
    (today : ℤ) (now : ℚ) : Except CoreError (List (String × ℚ)) :=
  if configured store then
    .ok ((store.map (score_of log today now)).insertionSort scoreGE)
  else
    .error .incompleteConfiguration

/-- The selection step of `instant_mode` (CLI lines 307–317): offer the
ranked subjects in order, choose the first the caller accepts; if all are
rejected, fall back to `subject_priorities[0][0]`.  The indexing raises
`IndexError` on an empty ranking, modelled by `none`. -/
def select_subject (ranked : List (String × ℚ)) (accept : String → Bool) :
    Option String :=
  match ranked.find? fun p => accept p.1 with
  | some p => some p.1
  | none => ranked.head?.map Prod.fst

/-- Update a subject's stored confidence (`subjects[subject]["confidence"] = v`). -/
def update_confidence (store : SubjectStore) (subject : String) (v : ℤ) :
    SubjectStore :=
  store.map fun p =>
    if p.1 == subject then (p.1, { p.2 with confidence := some v }) else p

/-- The state transition of `manual_log_session` (CLI lines 134–183) once the
re-prompt loops have delivered a subject in the store, an integer `mins`
(any integer is accepted — there is no positivity check), and an
`effectiveness` in `[1,10]`.  The confidence prompt yields `none` when left
blank or unparseable; a parsed value is applied only when it lies in
`[1,10]`, otherwise it is reported as invalid and ignored.  The session is
appended in every case. -/
def manual_log_session (store : SubjectStore) (log : List SessionRecord)
    (subject task : String) (mins effectiveness : ℤ) (newConf : Option ℤ)
    (now : ℚ) : SubjectStore × List SessionRecord :=
  let store' :=
    match newConf with
    | some v => if 1 ≤ v ∧ v ≤ 10 then update_confidence store subject v else store
    | none => store
  (store', log ++ [⟨subject, now, task, mins, effectiveness⟩])

/-- The confirm-and-log step at the end of `instant_mode` (CLI lines
332–351): when the session is completed, a non-blank confidence answer is
applied with no range validation at all, and the session is appended. -/
def instant_confirm_log (store : SubjectStore) (log : List SessionRecord)
    (chosen task : String) (mins rating : ℤ) (newConf : Option ℤ)
    (now : ℚ) : SubjectStore × List SessionRecord :=
  let store' :=
    match newConf with
    | some v => update_confidence store chosen v
    | none => store
  (store', log ++ [⟨chosen, now, task, mins, rating⟩])

/-! ### Streaks -/

/-- One backward-counting loop step shared by both front ends' streak code:
while `today - streak` is in the date set, increment; `fuel` bounds the
number of iterations. -/
def streak_loop (dates : List ℤ) (today : ℤ) : ℕ → ℕ → ℕ
  | 0, streak => streak
  | fuel + 1, streak =>
    if today - streak ∈ dates then streak_loop dates today fuel (streak + 1)
    else streak

namespace CLI

/-- `calculate_streak` of `NextStep_CLI.py` (lines 16–30): empty set gives 0;
otherwise a `for i in range(100)` loop counts consecutive days backward from
today, breaking at the first absent day — the look-back is capped at 100. -/
def calculate_streak (dates : List ℤ) (today : ℤ) : ℕ :=
  if dates = [] then 0
  else streak_loop dates today 100 0

end CLI

namespace Web

/-- `calculate_streak` of `NextStep_Streamlit.py` (lines 59–67): empty set
gives 0; otherwise an unbounded `while` loop counts consecutive days backward
from today.  The loop terminates because each counted offset contributes a
distinct member of the finite date set, so the count never exceeds
`dates.dedup.length`; fuel `dates.dedup.length + 1` therefore never runs out
before the loop's own exit condition, and the embedding equals the loop. -/
def calculate_streak (dates : List ℤ) (today : ℤ) : ℕ :=
  if dates = [] then 0
  else streak_loop dates today (dates.dedup.length + 1) 0

end Web

/-! ### Statistics -/

/-- Per-subject accumulator of `view_summary` (CLI lines 47–63) and the
Dashboard page (Streamlit lines 112–127). -/
structure SubjStats where
  count : ℕ
  total_time : ℤ
  total_rating : ℤ
deriving DecidableEq

/-- One step of the `defaultdict` accumulation: bump the subject's entry,
creating it (at the end, preserving first-appearance order) on first sight. -/
def add_entry (stats : List (String × SubjStats)) (e : SessionRecord) :
    List (String × SubjStats) :=
  if stats.any fun p => p.1 == e.subject then
    stats.map fun p =>
      if p.1 == e.subject then
        (p.1, ⟨p.2.count + 1, p.2.total_time + e.duration_mins,
               p.2.total_rating + e.effectiveness⟩)
      else p
  else
    stats ++ [(e.subject, ⟨1, e.duration_mins, e.effectiveness⟩)]

/-- The per-subject statistics table built from the log. -/
def subject_stats (log : List SessionRecord) : List (String × SubjStats) :=
  log.foldl add_entry []

/-- The per-subject average effectiveness line of the summary:
`total_rating / count` (CLI line 62, Streamlit line 121). -/
def summary_averages (log : List SessionRecord) : List (String × ℚ) :=
  (subject_stats log).map fun p =>
    (p.1, (p.2.total_rating : ℚ) / (p.2.count : ℚ))

end NextStep

/-! ### Properties of the streak loop -/

namespace NextStep

theorem le_streak_loop (d : List ℤ) (t : ℤ) :
    ∀ fuel acc, acc ≤ streak_loop d t fuel acc := by
  intro fuel
  induction fuel with
  | zero => intro acc; simp [streak_loop]
  | succ n ih =>
    intro acc
    rw [streak_loop]
    split
    · exact le_trans (Nat.le_succ acc) (ih (acc + 1))
    · exact le_refl acc

theorem streak_loop_le (d : List ℤ) (t : ℤ) :
    ∀ fuel acc, streak_loop d t fuel acc ≤ acc + fuel := by
  intro fuel
  induction fuel with
  | zero => intro acc; simp [streak_loop]
  | succ n ih =>
    intro acc
    rw [streak_loop]
    split
    · exact le_trans (ih (acc + 1)) (by omega)
    · omega

theorem streak_loop_mem (d : List ℤ) (t : ℤ) :
    ∀ fuel acc j, acc ≤ j → j < streak_loop d t fuel acc → t - (j : ℤ) ∈ d := by
  intro fuel
  induction fuel with
  | zero => intro acc j h1 h2; rw [streak_loop] at h2; omega
  | succ n ih =>
    intro acc j h1 h2
    rw [streak_loop] at h2
    by_cases hm : t - (acc : ℤ) ∈ d
    · rw [if_pos hm] at h2
      rcases Nat.eq_or_lt_of_le h1 with rfl | hlt
      · exact hm
      · exact ih (acc + 1) j hlt h2
    · rw [if_neg hm] at h2
      omega

theorem streak_loop_stop (d : List ℤ) (t : ℤ) :
    ∀ fuel acc, streak_loop d t fuel acc < acc + fuel →
      t - (streak_loop d t fuel acc : ℤ) ∉ d := by
  intro fuel
  induction fuel with
  | zero => intro acc h; rw [streak_loop] at h; omega
  | succ n ih =>
    intro acc h
    rw [streak_loop] at h ⊢
    by_cases hm : t - (acc : ℤ) ∈ d
    · rw [if_pos hm] at h ⊢
      exact ih (acc + 1) (by omega)
    · rw [if_neg hm]
      exact hm

theorem streak_loop_min (d : List ℤ) (t : ℤ) :
    ∀ fuel fuel' acc, fuel ≤ fuel' →
      streak_loop d t fuel acc = min (streak_loop d t fuel' acc) (acc + fuel) := by
  intro fuel
  induction fuel with
  | zero =>
    intro fuel' acc _
    rw [streak_loop]
    have := le_streak_loop d t fuel' acc
    omega
  | succ n ih =>
    intro fuel' acc hle
    obtain ⟨m, rfl⟩ : ∃ m, fuel' = m + 1 := ⟨fuel' - 1, by omega⟩
    rw [streak_loop, streak_loop]
    by_cases hm : t - (acc : ℤ) ∈ d
    · rw [if_pos hm, if_pos hm, ih m (acc + 1) (by omega)]
      omega
    · rw [if_neg hm, if_neg hm]
      omega

theorem streak_loop_of_not_mem (d : List ℤ) (t : ℤ) (fuel acc : ℕ)
    (h : t - (acc : ℤ) ∉ d) : streak_loop d t fuel acc = acc := by
  cases fuel with
  | zero => rw [streak_loop]
  | succ n => rw [streak_loop, if_neg h]

theorem streak_loop_of_mem (d : List ℤ) (t : ℤ) (fuel acc : ℕ)
    (h : t - (acc : ℤ) ∈ d) :
    streak_loop d t (fuel + 1) acc = streak_loop d t fuel (acc + 1) := by
  rw [streak_loop, if_pos h]

theorem streak_loop_le_dedup (d : List ℤ) (t : ℤ) (fuel : ℕ) :
    streak_loop d t fuel 0 ≤ d.dedup.length := by
  by_contra hcon
  push_neg at hcon
  have hmem : ∀ j : ℕ, j < d.dedup.length + 1 → t - (j : ℤ) ∈ d := by
    intro j hj
    exact streak_loop_mem d t fuel 0 j (Nat.zero_le j) (by omega)
  have hnodup : ((List.range (d.dedup.length + 1)).map fun j : ℕ => t - (j : ℤ)).Nodup := by
    refine List.Nodup.map ?_ (List.nodup_range _)
    intro a b hab
    simp only [sub_right_inj, Int.natCast_inj] at hab
    exact hab
  have hsub : ((List.range (d.dedup.length + 1)).map fun j : ℕ => t - (j : ℤ)) ⊆ d.dedup := by
    intro x hx
    rw [List.mem_map] at hx
    obtain ⟨j, hj, rfl⟩ := hx
    rw [List.mem_range] at hj
    exact List.mem_dedup.mpr (hmem j hj)
  have hlen := (List.subperm_of_subset hnodup hsub).length_le
  rw [List.length_map, List.length_range] at hlen
  omega

theorem web_streak_bound (d : List ℤ) (t : ℤ) :
    Web.calculate_streak d t ≤ d.dedup.length := by
  rw [Web.calculate_streak]
  split
  · exact Nat.zero_le _
  · exact streak_loop_le_dedup d t _

theorem web_streak_spec (d : List ℤ) (t : ℤ) :
    (∀ j : ℕ, j < Web.calculate_streak d t → t - (j : ℤ) ∈ d) ∧
      t - (Web.calculate_streak d t : ℤ) ∉ d := by
  by_cases hd : d = []
  · subst hd
    refine ⟨fun j hj => ?_, fun h => ?_⟩
    · simp [Web.calculate_streak] at hj
    · simp at h
  · have hb := web_streak_bound d t
    rw [Web.calculate_streak, if_neg hd] at hb ⊢
    refine ⟨fun j hj => streak_loop_mem d t _ 0 j (Nat.zero_le j) hj, ?_⟩
    exact streak_loop_stop d t _ 0 (by omega)

theorem cli_eq_min_web (d : List ℤ) (t : ℤ) :
    CLI.calculate_streak d t = min (Web.calculate_streak d t) 100 := by
  by_cases hd : d = []
  · subst hd
    simp [CLI.calculate_streak, Web.calculate_streak]
  · rw [CLI.calculate_streak, Web.calculate_streak, if_neg hd, if_neg hd]
    have h1 := streak_loop_min d t 100 (max (d.dedup.length + 1) 100) 0 (le_max_right _ _)
    have h2 := streak_loop_min d t (d.dedup.length + 1) (max (d.dedup.length + 1) 100) 0
      (le_max_left _ _)
    have h3 := streak_loop_le_dedup d t (max (d.dedup.length + 1) 100)
    omega

end NextStep

/-! ### Helper lemmas about the priority engine and the statistics fold -/

namespace NextStep

theorem instant_mode_rank_ok_iff (store : SubjectStore) (log : List SessionRecord)
    (today : ℤ) (now : ℚ) (ranked : List (String × ℚ)) :
    instant_mode_rank store log today now = .ok ranked ↔
      configured store = true ∧
        ranked = (store.map (score_of log today now)).insertionSort scoreGE := by
  rw [instant_mode_rank]
  split
  · next h => simp [h, eq_comm]
  · next h => simp [h]

theorem rank_store0_eval :
    instant_mode_rank [("Maths", ⟨some 8, some 5⟩)] [] 0 0
      = .ok [("Maths", 33 / 10)] := by
  simp [instant_mode_rank, configured, confTruthy, dateTruthy, score_of,
    priority_score, get_days_since_last_session, recent_session_count,
    adjusted_confidence, urgency]
  rw [max_eq_left (by norm_num)]
  norm_num

theorem priority_score_formula (log : List SessionRecord) (s : String)
    (c e today : ℤ) (now : ℚ) (hc : 1 ≤ c) :
    priority_score log s c e today now =
      urgency (e - today) * (3 / 2)
        + ((11 : ℚ) - ((max 1 (c - (match get_days_since_last_session log s now with
            | some ds => min (Int.fdiv ds 7) 3
            | none => 0)) : ℤ) : ℚ))
        - (recent_session_count log s now 7 : ℚ) * (1 / 2) := by
  rw [priority_score]
  cases hds : get_days_since_last_session log s now with
  | none =>
    simp only [adjusted_confidence]
    rw [sub_zero, max_eq_right hc]
    push_cast
    ring
  | some d =>
    simp only [adjusted_confidence]
    push_cast
    ring

theorem add_entry_count_pos (acc : List (String × SubjStats)) (e : SessionRecord)
    (h : ∀ p ∈ acc, 0 < p.2.count) : ∀ p ∈ add_entry acc e, 0 < p.2.count := by
  intro p hp
  rw [add_entry] at hp
  split at hp
  · rw [List.mem_map] at hp
    obtain ⟨q, hq, rfl⟩ := hp
    by_cases hqe : (q.1 == e.subject) = true
    · simp only [if_pos hqe]
      exact Nat.succ_pos _
    · simp only [if_neg hqe]
      exact h q hq
  · rcases List.mem_append.mp hp with hin | hin
    · exact h p hin
    · rw [List.mem_singleton] at hin
      subst hin
      exact Nat.one_pos

theorem add_entry_key (acc : List (String × SubjStats)) (e : SessionRecord) :
    ∀ p ∈ add_entry acc e, p.1 ∈ acc.map Prod.fst ∨ p.1 = e.subject := by
  intro p hp
  rw [add_entry] at hp
  split at hp
  · rw [List.mem_map] at hp
    obtain ⟨q, hq, rfl⟩ := hp
    by_cases hqe : (q.1 == e.subject) = true
    · simp only [if_pos hqe]
      exact Or.inl (List.mem_map_of_mem _ hq)
    · simp only [if_neg hqe]
      exact Or.inl (List.mem_map_of_mem _ hq)
  · rcases List.mem_append.mp hp with hin | hin
    · exact Or.inl (List.mem_map_of_mem _ hin)
    · rw [List.mem_singleton] at hin
      subst hin
      exact Or.inr rfl

theorem foldl_count_pos (log : List SessionRecord) :
    ∀ acc, (∀ p ∈ acc, 0 < p.2.count) →
      ∀ p ∈ log.foldl add_entry acc, 0 < p.2.count := by
  induction log with
  | nil => intro acc h p hp; exact h p (by simpa using hp)
  | cons e rest ih =>
    intro acc h
    rw [List.foldl_cons]
    exact ih (add_entry acc e) (add_entry_count_pos acc e h)

theorem foldl_keys (log : List SessionRecord) :
    ∀ acc, ∀ p ∈ log.foldl add_entry acc,
      p.1 ∈ acc.map Prod.fst ∨ p.1 ∈ log.map (·.subject) := by
  induction log with
  | nil => intro acc p hp; exact Or.inl (List.mem_map_of_mem _ (by simpa using hp))
  | cons e rest ih =>
    intro acc p hp
    rw [List.foldl_cons] at hp
    rcases ih (add_entry acc e) p hp with hk | hk
    · rw [List.mem_map] at hk
      obtain ⟨q, hq, hq1⟩ := hk
      rcases add_entry_key acc e q hq with h2 | h2
      · exact Or.inl (hq1 ▸ h2)
      · right
        rw [List.map_cons, ← hq1, h2]
        exact List.mem_cons_self _ _
    · right
      rw [List.map_cons]
      exact List.mem_cons_of_mem _ hk

end NextStep

/-! ### The claims -/

namespace NextStep

/-- C1: for every fully configured subject (confidence in `[1,10]`, exam date
set) in a store accepted by Instant Mode, the ranking pairs the subject with
the score `urgency * 1.5 + difficulty - repetition_penalty`, where
`urgency = 1 / max(days_left, 0.1)`, `decay = min(days_since // 7, 3)` when a
last session exists and `0` otherwise, `difficulty = 11 - max(1, confidence -
decay)`, and the penalty is half the number of sessions of that subject in the
last 7 days; and on the concrete store with confidence 8, exam in 5 days and an
empty log, the score is `3.3`. -/
theorem instant_mode_score_formula :
    (∀ (store : SubjectStore) (log : List SessionRecord) (today : ℤ) (now : ℚ)
        (s : String) (dta : SubjectData) (c e : ℤ) (ranked : List (String × ℚ)),
      1 ≤ c → c ≤ 10 →
      dta.confidence = some c → dta.exam_date = some e →
      (s, dta) ∈ store →
      instant_mode_rank store log today now = .ok ranked →
      (s, urgency (e - today) * (3 / 2)
          + ((11 : ℚ) - ((max 1 (c - (match get_days_since_last_session log s now with
              | some ds => min (Int.fdiv ds 7) 3
              | none => 0)) : ℤ) : ℚ))
          - (recent_session_count log s now 7 : ℚ) * (1 / 2)) ∈ ranked) ∧
    instant_mode_rank [("Maths", ⟨some 8, some 5⟩)] [] 0 0 = .ok [("Maths", 33 / 10)] := by
  refine ⟨?_, rank_store0_eval⟩
  intro store log today now s dta c e ranked hc1 _ hconf hexam hmem hok
  obtain ⟨-, rfl⟩ := (instant_mode_rank_ok_iff store log today now ranked).mp hok
  rw [List.mem_insertionSort]
  have hsc : score_of log today now (s, dta)
      = (s, urgency (e - today) * (3 / 2)
          + ((11 : ℚ) - ((max 1 (c - (match get_days_since_last_session log s now with
              | some ds => min (Int.fdiv ds 7) 3
              | none => 0)) : ℤ) : ℚ))
          - (recent_session_count log s now 7 : ℚ) * (1 / 2)) := by
    rw [score_of]
    simp only [hconf, hexam, Option.getD_some]
    rw [priority_score_formula log s c e today now hc1]
  rw [← hsc]
  exact List.mem_map_of_mem _ hmem

/-- C1 witness: the general statement applied to the concrete store
`{"Maths": {confidence: 8, exam_date: today+5}}` with an empty log places
Maths at score `3.3` in the ranking. -/
theorem instant_mode_score_formula_witness :
    (("Maths" : String),
      urgency (5 - 0) * (3 / 2)
        + ((11 : ℚ) - ((max 1 (8 - (match get_days_since_last_session [] "Maths" 0 with
            | some ds => min (Int.fdiv ds 7) 3
            | none => 0)) : ℤ) : ℚ))
        - (recent_session_count [] "Maths" 0 7 : ℚ) * (1 / 2))
      ∈ [(("Maths" : String), (33 : ℚ) / 10)] :=
  instant_mode_score_formula.1 [("Maths", ⟨some 8, some 5⟩)] [] 0 0 "Maths"
    ⟨some 8, some 5⟩ 8 5 [("Maths", 33 / 10)] (by norm_num) (by norm_num) rfl rfl
    (List.mem_singleton.mpr rfl) instant_mode_score_formula.2

/-- C2 (code bug): the CLI session recorder performs no positivity check on
the duration, contrary to the specified `ValidationError`: recording a session
with `duration_mins = 0` appends the record and grows the log from length 0 to
length 1. -/
theorem manual_log_zero_duration_logged :
    (manual_log_session [("Maths", ⟨some 8, some 5⟩)] [] "Maths" "Flashcards" 0 5 none 0).2
        = [⟨"Maths", 0, "Flashcards", 0, 5⟩] ∧
      (manual_log_session [("Maths", ⟨some 8, some 5⟩)] [] "Maths" "Flashcards" 0 5 none 0).2.length
        = 1 :=
  ⟨rfl, rfl⟩

/-- C3 counterexample: recording a session with `new_confidence = 11` does not
leave the log unchanged — the session record is appended, so the log length
differs from the empty log, contradicting the claim that no state mutates. -/
theorem invalid_confidence_appends_cex :
    (manual_log_session [("Maths", ⟨some 8, some 5⟩)] [] "Maths" "Essay" 30 5 (some 11) 0).2.length
      ≠ ([] : List SessionRecord).length := by
  decide

/-- C3 amended: a supplied `new_confidence` outside `[1,10]` is not an error:
the manual recorder ignores the confidence update (the store is unchanged)
while still appending the session record, and the instant-mode recorder
applies the out-of-range confidence without any validation and appends the
record as well. -/
theorem invalid_confidence_ignored_logged (store : SubjectStore)
    (log : List SessionRecord) (subject task : String) (mins eff v : ℤ)
    (now : ℚ) (h : v < 1 ∨ 10 < v) :
    manual_log_session store log subject task mins eff (some v) now
        = (store, log ++ [⟨subject, now, task, mins, eff⟩]) ∧
      instant_confirm_log store log subject task mins eff (some v) now
        = (update_confidence store subject v, log ++ [⟨subject, now, task, mins, eff⟩]) := by
  constructor
  · rw [manual_log_session]
    have hv : ¬ (1 ≤ v ∧ v ≤ 10) := by omega
    rw [if_neg hv]
  · rfl

/-- C3 witness: the amended statement at `new_confidence = 11` on a concrete
store: confidence stays 8 and the session is appended. -/
theorem invalid_confidence_ignored_logged_witness :
    manual_log_session [("Maths", ⟨some 8, some 5⟩)] [] "Maths" "Essay" 30 5 (some 11) 0
      = ([("Maths", ⟨some 8, some 5⟩)], [⟨"Maths", 0, "Essay", 30, 5⟩]) :=
  (invalid_confidence_ignored_logged [("Maths", ⟨some 8, some 5⟩)] [] "Maths" "Essay"
    30 5 11 0 (Or.inr (by norm_num))).1

/-- C4: if any subject in the store lacks a confidence value or an exam date,
Instant Mode fails with `IncompleteConfigurationError` and computes no
scores. -/
theorem incomplete_configuration_guard (store : SubjectStore)
    (log : List SessionRecord) (today : ℤ) (now : ℚ) (s : String)
    (dta : SubjectData) (hmem : (s, dta) ∈ store)
    (h : dta.confidence = none ∨ dta.exam_date = none) :
    instant_mode_rank store log today now = .error .incompleteConfiguration := by
  rw [instant_mode_rank]
  have hc : ¬ configured store = true := by
    rw [configured, List.all_eq_true]
    intro hall
    have := hall (s, dta) hmem
    rcases h with h | h <;> simp [confTruthy, dateTruthy, h] at this
  rw [if_neg hc]

/-- C4 witness: a store whose only subject has no confidence makes Instant
Mode fail with the configuration error. -/
theorem incomplete_configuration_guard_witness :
    instant_mode_rank [("Science", ⟨none, some 5⟩)] [] 0 0
      = .error .incompleteConfiguration :=
  incomplete_configuration_guard [("Science", ⟨none, some 5⟩)] [] 0 0 "Science"
    ⟨none, some 5⟩ (List.mem_singleton.mpr rfl) (Or.inl rfl)

set_option maxRecDepth 10000 in
/-- C5 counterexample: on 101 consecutive study days ending today the CLI
streak returns 100 even though the day at offset 100 is present in the date
set — the computation does not stop at the first gap, contradicting the
claim's general clause. -/
theorem calculate_streak_cap_cex :
    CLI.calculate_streak ((List.range 101).map fun i => -(i : ℤ)) 0 = 100 ∧
      (0 : ℤ) - 100 ∈ ((List.range 101).map fun i => -(i : ℤ)) := by
  constructor <;> decide

/-- C5 amended: the streak is 0 on an empty log, 1 when the only session date
is today, and 0 when every session date is two or more days before today; the
web streak counts consecutive calendar days backward from today stopping at
the first gap, and the CLI streak equals the web streak capped at 100 (its
look-back bound). -/
theorem calculate_streak_spec :
    (∀ t : ℤ, CLI.calculate_streak [] t = 0 ∧ Web.calculate_streak [] t = 0) ∧
      (∀ t : ℤ, CLI.calculate_streak [t] t = 1 ∧ Web.calculate_streak [t] t = 1) ∧
      (∀ (dates : List ℤ) (t : ℤ), (∀ d ∈ dates, d ≤ t - 2) →
        CLI.calculate_streak dates t = 0 ∧ Web.calculate_streak dates t = 0) ∧
      (∀ (dates : List ℤ) (t : ℤ),
        (∀ j : ℕ, j < Web.calculate_streak dates t → t - (j : ℤ) ∈ dates) ∧
          t - (Web.calculate_streak dates t : ℤ) ∉ dates) ∧
      (∀ (dates : List ℤ) (t : ℤ),
        CLI.calculate_streak dates t = min (Web.calculate_streak dates t) 100) := by
  refine ⟨fun t => ⟨rfl, rfl⟩, ?_, ?_, web_streak_spec, cli_eq_min_web⟩
  · intro t
    have hmem : t - ((0 : ℕ) : ℤ) ∈ [t] := by simp
    have hnot : t - ((0 + 1 : ℕ) : ℤ) ∉ [t] := by
      rw [List.mem_singleton]
      intro hcon
      omega
    constructor
    · rw [CLI.calculate_streak, if_neg (by simp)]
      rw [show (100 : ℕ) = 99 + 1 from rfl]
      rw [streak_loop_of_mem _ _ _ _ hmem]
      exact streak_loop_of_not_mem _ _ _ _ hnot
    · rw [Web.calculate_streak, if_neg (by simp)]
      have hd : ([t] : List ℤ).dedup = [t] := by simp
      rw [hd, List.length_singleton]
      rw [streak_loop_of_mem _ _ _ _ hmem]
      exact streak_loop_of_not_mem _ _ _ _ hnot
  · intro dates t hdates
    have ht : t - ((0 : ℕ) : ℤ) ∉ dates := by
      intro hmem
      have := hdates _ hmem
      omega
    constructor
    · rw [CLI.calculate_streak]
      split
      · rfl
      · exact streak_loop_of_not_mem dates t 100 0 ht
    · rw [Web.calculate_streak]
      split
      · rfl
      · exact streak_loop_of_not_mem dates t _ 0 ht

/-- C5 witness: on the date set `{today - 5}` (most recent session five days
ago) both streak computations return 0. -/
theorem calculate_streak_spec_witness :
    CLI.calculate_streak [(-5 : ℤ)] 0 = 0 ∧ Web.calculate_streak [(-5 : ℤ)] 0 = 0 :=
  calculate_streak_spec.2.2.1 [(-5 : ℤ)] 0 (by
    intro d hd
    rw [List.mem_singleton] at hd
    omega)

/-- C6: a successful Instant Mode ranking is sorted in descending order of
score, and the selection step returns the first subject the caller accepts,
falling back to the rank-0 subject when every ranked subject is rejected. -/
theorem ranking_sorted_and_selection (store : SubjectStore)
    (log : List SessionRecord) (today : ℤ) (now : ℚ)
    (ranked : List (String × ℚ))
    (hok : instant_mode_rank store log today now = .ok ranked) :
    List.Sorted scoreGE ranked ∧
      (∀ (accept : String → Bool) (p : String × ℚ),
        (ranked.find? fun q => accept q.1) = some p →
          select_subject ranked accept = some p.1) ∧
      (∀ accept : String → Bool, (∀ p ∈ ranked, accept p.1 = false) →
        select_subject ranked accept = ranked.head?.map Prod.fst) := by
  refine ⟨?_, ?_, ?_⟩
  · obtain ⟨-, rfl⟩ := (instant_mode_rank_ok_iff store log today now ranked).mp hok
    exact List.sorted_insertionSort scoreGE _
  · intro accept p h
    rw [select_subject, h]
  · intro accept h
    have hn : (ranked.find? fun p => accept p.1) = none := by
      rw [List.find?_eq_none]
      intro x hx
      simp [h x hx]
    rw [select_subject, hn]

/-- C6 witness: the concrete singleton ranking is sorted, and rejecting
everything falls back to its rank-0 subject. -/
theorem ranking_sorted_and_selection_witness :
    List.Sorted scoreGE [(("Maths" : String), (33 : ℚ) / 10)] ∧
      select_subject [(("Maths" : String), (33 : ℚ) / 10)] (fun _ => false)
        = some "Maths" := by
  have h := ranking_sorted_and_selection [("Maths", ⟨some 8, some 5⟩)] [] 0 0
    [("Maths", 33 / 10)] rank_store0_eval
  refine ⟨h.1, ?_⟩
  rw [h.2.2 (fun _ => false) (fun p _ => rfl)]
  rfl

/-- C7 counterexample: urgency is not strictly decreasing in `days_left` over
all inputs — at `days_left = -1 < 0` it is already clamped, so
`urgency 0 < urgency (-1)` fails (both equal 10). -/
theorem urgency_not_strictly_decreasing_cex :
    urgency (-1) = 10 ∧ urgency 0 = 10 ∧ ¬ urgency 0 < urgency (-1) := by
  have h1 : urgency (-1) = 10 := by
    rw [urgency, max_eq_right (by norm_num)]
    norm_num
  have h2 : urgency 0 = 10 := by
    rw [urgency, max_eq_right (by norm_num)]
    norm_num
  exact ⟨h1, h2, by rw [h1, h2]; exact lt_irrefl 10⟩

/-- C7 amended: urgency is exactly 10 whenever `days_left ≤ 0` (the clamp),
and strictly decreases as `days_left` grows over nonnegative `days_left`. -/
theorem urgency_clamped_and_monotone :
    (∀ d : ℤ, d ≤ 0 → urgency d = 10) ∧
      (∀ d1 d2 : ℤ, 0 ≤ d1 → d1 < d2 → urgency d2 < urgency d1) := by
  constructor
  · intro d hd
    rw [urgency, max_eq_right]
    · norm_num
    · calc (d : ℚ) ≤ 0 := by exact_mod_cast hd
        _ ≤ 1 / 10 := by norm_num
  · intro d1 d2 h0 hlt
    have h2 : (1 : ℤ) ≤ d2 := by omega
    rw [urgency, urgency]
    have hmax2 : max (d2 : ℚ) (1 / 10) = (d2 : ℚ) := by
      apply max_eq_left
      calc (1 : ℚ) / 10 ≤ 1 := by norm_num
        _ ≤ (d2 : ℚ) := by exact_mod_cast h2
    have hpos : (0 : ℚ) < max (d1 : ℚ) (1 / 10) := lt_max_of_lt_right (by norm_num)
    have hlt2 : max (d1 : ℚ) (1 / 10) < max (d2 : ℚ) (1 / 10) := by
      rw [hmax2]
      rcases le_or_lt 1 d1 with h1 | h1
      · rw [max_eq_left]
        · exact_mod_cast hlt
        · calc (1 : ℚ) / 10 ≤ 1 := by norm_num
            _ ≤ (d1 : ℚ) := by exact_mod_cast h1
      · have hd1 : d1 = 0 := by omega
        subst hd1
        rw [max_eq_right (by norm_num)]
        calc (1 : ℚ) / 10 < 1 := by norm_num
          _ ≤ (d2 : ℚ) := by exact_mod_cast h2
    exact one_div_lt_one_div_of_lt hpos hlt2

/-- C7 witness: the amended statement at concrete inputs: `urgency (-3) = 10`
and `urgency 2 < urgency 1`. -/
theorem urgency_clamped_and_monotone_witness :
    urgency (-3) = 10 ∧ urgency 2 < urgency 1 :=
  ⟨urgency_clamped_and_monotone.1 (-3) (by norm_num),
   urgency_clamped_and_monotone.2 1 2 (by norm_num) (by norm_num)⟩

/-- C8: every row of the per-subject statistics has a positive session count
(so the average-effectiveness division is never by zero), every row belongs
to a subject that occurs in the log (a subject with zero sessions is absent),
and the reported average is exactly `total_rating / count`. -/
theorem summary_average_safe :
    ∀ log : List SessionRecord,
      (∀ p ∈ subject_stats log, 0 < p.2.count) ∧
        (∀ p ∈ subject_stats log, p.1 ∈ log.map (·.subject)) ∧
        summary_averages log
          = (subject_stats log).map fun p =>
              (p.1, (p.2.total_rating : ℚ) / (p.2.count : ℚ)) := by
  intro log
  refine ⟨foldl_count_pos log [] (by simp), ?_, rfl⟩
  intro p hp
  rcases foldl_keys log [] p hp with h | h
  · simp at h
  · exact h

/-- C8 witness: on a one-session log the single statistics row has the
positive count 1. -/
theorem summary_average_safe_witness :
    0 < (SubjStats.mk 1 30 5).count :=
  (summary_average_safe [⟨"Maths", 0, "t", 30, 5⟩]).1 ("Maths", ⟨1, 30, 5⟩) (by decide)

/-- C9: the completeness guard accepts an empty subject store vacuously and
the ranking is empty; the selection step on an empty ranking yields no
subject (the `subject_priorities[0][0]` fallback raises `IndexError`); hence
a subject is returned only when the store is non-empty. -/
theorem empty_store_rank_and_selection :
    (∀ (log : List SessionRecord) (today : ℤ) (now : ℚ),
      instant_mode_rank [] log today now = .ok []) ∧
      (∀ accept : String → Bool, select_subject [] accept = none) ∧
      (∀ (store : SubjectStore) (log : List SessionRecord) (today : ℤ) (now : ℚ)
          (ranked : List (String × ℚ)) (accept : String → Bool) (s : String),
        instant_mode_rank store log today now = .ok ranked →
        select_subject ranked accept = some s → store ≠ []) := by
  refine ⟨fun log today now => rfl, fun accept => rfl, ?_⟩
  intro store log today now ranked accept s hok hsel hstore
  subst hstore
  have h0 : instant_mode_rank ([] : SubjectStore) log today now = .ok [] := rfl
  rw [h0] at hok
  injection hok with h
  subst h
  exact Option.noConfusion hsel

/-- C9 witness: the non-emptiness consequence applied to a store that did
produce a selected subject. -/
theorem empty_store_rank_and_selection_witness :
    ([(("Maths" : String), (⟨some 8, some 5⟩ : SubjectData))] : SubjectStore) ≠ [] :=
  empty_store_rank_and_selection.2.2 [("Maths", ⟨some 8, some 5⟩)] [] 0 0
    [("Maths", 33 / 10)] (fun _ => true) "Maths" rank_store0_eval rfl

set_option maxRecDepth 10000 in
/-- C10 counterexample: on 101 consecutive study days ending today the CLI
streak (capped at 100) and the web streak (101) disagree. -/
theorem streak_front_ends_differ_cex :
    CLI.calculate_streak ((List.range 101).map fun i => -(i : ℤ)) 0
      ≠ Web.calculate_streak ((List.range 101).map fun i => -(i : ℤ)) 0 := by
  decide

/-- C10 amended: the two front ends' streak computations agree on every input
whose web streak is at most 100; in general the CLI value is the web value
capped at 100. -/
theorem streak_agreement (dates : List ℤ) (t : ℤ) :
    (Web.calculate_streak dates t ≤ 100 →
        CLI.calculate_streak dates t = Web.calculate_streak dates t) ∧
      CLI.calculate_streak dates t = min (Web.calculate_streak dates t) 100 := by
  have h := cli_eq_min_web dates t
  exact ⟨fun hb => by omega, h⟩

/-- C10 witness: the agreement applied at the date set `{today}`. -/
theorem streak_agreement_witness :
    CLI.calculate_streak [(0 : ℤ)] 0 = Web.calculate_streak [(0 : ℤ)] 0 :=
  (streak_agreement [(0 : ℤ)] 0).1 (by decide)

end NextStep
